import Mathlib

/-!
Verification of the fsweep scan/index/cleanup engine (src/fsweep/cli.py,
src/fsweep/config.py) against its specification.

The development shallowly embeds the engine:

* a directory tree is an inductive value (`Entry`); regular files and symbolic
  links carry the sizes the operating system would report (a symlink carries
  both the size of the link object itself and the size of its target's
  content, so that theorems can express that the latter is never counted);
  a `statOk`/`listOk` flag models whether stat/listdir calls succeed, since
  the engine silently skips entries that raise PermissionError/OSError;
* paths are lists of path components (`RPath`); the engine resolves the scan
  root and all protected paths once up front, and never follows symbolic
  links while walking, so path resolution is the identity on the walked
  paths and `Path.relative_to`/`Path.parents` become list operations;
* the single top-down os.walk traversal of `FSweepEngine.scan` is the
  mutually recursive `walkDir`/`walkPairs`; pruning (no descent into matched,
  excluded or protected subdirectories, or below a `.fsweepignore` marker)
  is performed exactly where the source performs it;
* `fnmatch.fnmatch` of the Python standard library (POSIX behaviour, where
  `os.path.normcase` is the identity) is implemented over character lists;
* the mtime-keyed size index is modelled with a small JSON value type, so
  that `_load_scan_index`'s handling of malformed index files is faithful,
  including the uncaught AttributeError raised for a valid-JSON index file
  whose top level is not an object;
* `FSweepEngine.cleanup` is modelled with an oracle describing how the
  operating system answers each rmtree/move call, and returns the list of
  filesystem mutations it performed, so dry-run and refusal behaviour can
  state "no mutation happened";
* the `clean` CLI command's guard sequence is modelled as a pure function
  over the invocation flags and an environment record.
-/

namespace Fsweep

/-- A filesystem path, as its list of components.  Relative paths are
relative to the scan root; absolute paths are the components below the
filesystem root. -/
abbrev RPath := List String

/-! ## Filesystem model -/

/-- One directory entry.  `statOk = false` on a file or symlink models a
stat call that raises PermissionError/OSError; `listOk = false` on a
directory models a scandir/listdir call that raises. For a symlink,
`linkSize` is the size of the link object itself (`lstat().st_size`) and
`targetSize` is the total size of the content the link points at; the
engine must never count the latter. -/
inductive Entry where
  | file (name : String) (size : Nat) (statOk : Bool)
  | symlink (name : String) (linkSize targetSize : Nat) (statOk : Bool)
  | dir (name : String) (listOk : Bool) (entries : List Entry)

/-- Name of an entry. -/
def entryName : Entry → String
  | .file n _ _ => n
  | .symlink n _ _ _ => n
  | .dir n _ _ => n

mutual
/-- Well-formedness of a directory tree: within every directory, entry
names are pairwise distinct, as on a real filesystem. -/
def wfEntry : Entry → Bool
  | .file _ _ _ => true
  | .symlink _ _ _ _ => true
  | .dir _ _ es => wfEntries es
/-- Well-formedness of a list of sibling entries. -/
def wfEntries : List Entry → Bool
  | [] => true
  | e :: es => !((es.map entryName).contains (entryName e)) && wfEntry e && wfEntries es
end

mutual
/-- Structural weight of an entry, the termination measure of the walk. -/
def entryWeight : Entry → Nat
  | .file _ _ _ => 1
  | .symlink _ _ _ _ => 1
  | .dir _ _ es => 2 + entriesWeight es
/-- Structural weight of a list of entries. -/
def entriesWeight : List Entry → Nat
  | [] => 0
  | e :: es => entryWeight e + entriesWeight es
end

/-- The immediate subdirectories of a directory listing, with their names,
their own listability and their entries.  This is the `dirs` list that
`os.walk` hands to the loop body of `FSweepEngine.scan`. -/
def subdirPairs (es : List Entry) : List (String × Bool × List Entry) :=
  es.filterMap fun e =>
    match e with
    | .dir n ok sub => some (n, ok, sub)
    | _ => none

theorem subdirPairs_nil : subdirPairs [] = [] := rfl

theorem subdirPairs_cons_file (n : String) (s : Nat) (ok : Bool) (es : List Entry) :
    subdirPairs (.file n s ok :: es) = subdirPairs es := rfl

theorem subdirPairs_cons_symlink (n : String) (l t : Nat) (ok : Bool) (es : List Entry) :
    subdirPairs (.symlink n l t ok :: es) = subdirPairs es := rfl

theorem subdirPairs_cons_dir (n : String) (ok : Bool) (sub : List Entry) (es : List Entry) :
    subdirPairs (.dir n ok sub :: es) = (n, ok, sub) :: subdirPairs es := rfl

/-- Weight of a list of subdirectory pairs. -/
def pairsWeight : List (String × Bool × List Entry) → Nat
  | [] => 0
  | (_, _, sub) :: rest => 2 + entriesWeight sub + pairsWeight rest

/-- Whether a directory listing contains the sentinel ignore-marker
`.fsweepignore`; models `(root_path / ".fsweepignore").exists()`. -/
def hasIgnore (es : List Entry) : Bool :=
  es.any fun e => entryName e == ".fsweepignore"

/-! ## fnmatch (Python standard library, POSIX behaviour)

`FSweepEngine._is_excluded` delegates to `fnmatch.fnmatch`; on POSIX
`os.path.normcase` is the identity, so matching is case sensitive.  The
matcher below implements the glob language of `fnmatch.translate`:
`*` matches any character sequence (including `/`), `?` any single
character, and `[...]`/`[!...]` character classes with ranges; an
unterminated `[` is treated as a literal character. -/

/-- Scan the body of a character class up to the closing bracket.
Returns the body and the remaining pattern, or none if unterminated. -/
def classSpan : List Char → Option (List Char × List Char)
  | [] => none
  | c :: rest =>
      if c = ']' then some ([], rest)
      else
        match classSpan rest with
        | none => none
        | some (body, rest2) => some (c :: body, rest2)

/-- Parse a character class after an opening bracket: an optional leading
`!` negates, and a `]` in first position is a literal member, exactly as
in `fnmatch.translate`. -/
def parseClass (ps : List Char) : Option (Bool × List Char × List Char) :=
  match ps with
  | '!' :: ']' :: ps3 =>
      match classSpan ps3 with
      | none => none
      | some (body, rest) => some (true, ']' :: body, rest)
  | '!' :: ps2 =>
      match classSpan ps2 with
      | none => none
      | some (body, rest) => some (true, body, rest)
  | ']' :: ps2 =>
      match classSpan ps2 with
      | none => none
      | some (body, rest) => some (false, ']' :: body, rest)
  | _ =>
      match classSpan ps with
      | none => none
      | some (body, rest) => some (false, body, rest)

/-- Whether a character class body matches one character; ranges have
inclusive code-point bounds and a trailing hyphen is a literal. -/
def classMatches : List Char → Char → Bool
  | [], _ => false
  | a :: '-' :: b :: rest, c =>
      if a.toNat ≤ c.toNat && c.toNat ≤ b.toNat then true else classMatches rest c
  | a :: rest, c => if a = c then true else classMatches rest c

/-- Core glob matcher over character lists: does the pattern match the
whole string?  The recursion is fuelled: every step consumes at least one
pattern or string character, so `pattern length + string length + 1`
steps always suffice (see `fnmatch` below); the fuel only witnesses
termination and never changes the answer on such inputs. -/
def globMatch : Nat → List Char → List Char → Bool
  | 0, _, _ => false
  | fuel + 1, pat, cs =>
      match pat, cs with
      | [], [] => true
      | [], _ :: _ => false
      | '*' :: ps, cs =>
          globMatch fuel ps cs ||
            (match cs with
             | [] => false
             | _ :: cs2 => globMatch fuel ('*' :: ps) cs2)
      | '?' :: ps, cs =>
          (match cs with
           | [] => false
           | _ :: cs2 => globMatch fuel ps cs2)
      | '[' :: ps, cs =>
          (match parseClass ps with
           | none =>
               match cs with
               | [] => false
               | c :: cs2 => ('[' == c) && globMatch fuel ps cs2
           | some (neg, body, rest) =>
               match cs with
               | [] => false
               | c :: cs2 => (classMatches body c != neg) && globMatch fuel rest cs2)
      | p :: ps, cs =>
          (match cs with
           | [] => false
           | c :: cs2 => (p == c) && globMatch fuel ps cs2)

/-- Python `fnmatch.fnmatch(s, pat)` with POSIX case normalization. -/
def fnmatch (s : String) (pat : String) : Bool :=
  globMatch (pat.data.length + s.data.length + 1) pat.data s.data

/-! ## Configuration (src/fsweep/config.py) -/

/-- Default for the maximum number of folders a destructive run may touch. -/
def DEFAULT_MAX_DELETE_COUNT : Nat := 50

/-- Default target folder names from config.DEFAULT_TARGET_FOLDERS. -/
def DEFAULT_TARGET_FOLDERS : List String :=
  ["node_modules", ".next", ".nuxt", ".svelte-kit", ".astro", ".turbo",
   ".parcel-cache", ".vite", "venv", ".venv", "__pycache__", ".pytest_cache",
   ".tox", ".nox", ".mypy_cache", ".ruff_cache", ".ipynb_checkpoints",
   "build", "dist", "out", "coverage", "htmlcov", ".nyc_output", ".cache",
   ".gradle", "target", "bin", "obj", ".terraform", ".terragrunt-cache"]

/-- Effective configuration after merging all sources (`SweepConfig`).
Protected paths are absolute and already resolved, as the source resolves
them at config-build time. -/
structure SweepConfig where
  target_folders : List String
  exclude_patterns : List String
  protected_paths : List RPath
  max_delete_count : Nat
  no_delete_limit : Bool

/-- The default `SweepConfig()`. -/
def defaultSweepConfig : SweepConfig :=
  ⟨DEFAULT_TARGET_FOLDERS, [], [], DEFAULT_MAX_DELETE_COUNT, false⟩

/-- POSIX-separator form of a relative path, as produced by
`path.relative_to(self.target_path).as_posix()`. -/
def relPosix (rel : RPath) : String := String.intercalate "/" rel

/-- Basename of a path (`path.name`). -/
def basename (p : RPath) : String := (p.getLast?).getD ""

/-- `FSweepEngine._is_excluded`: some configured glob pattern matches the
candidate's path relative to the scan root (POSIX form) or its bare
basename. -/
def is_excluded (cfg : SweepConfig) (rel : RPath) : Bool :=
  cfg.exclude_patterns.any fun pattern =>
    fnmatch (relPosix rel) pattern || fnmatch (basename rel) pattern

/-- `FSweepEngine._is_protected`: the candidate's resolved absolute path
equals a configured protected path or has one among its ancestors
(`candidate == protected or protected in candidate.parents`), which for
component lists is exactly the prefix relation.  Candidates reached by the
walk contain no symbolic-link components (the walk never follows links),
so `resolve()` is the identity on them. -/
def is_protected (cfg : SweepConfig) (absPath : RPath) : Bool :=
  cfg.protected_paths.any fun protectedPath => protectedPath.isPrefixOf absPath

/-! ## Size computation (`FSweepEngine.get_size`) -/

mutual
/-- Size contributed by one node of the `rglob` iteration: a symlink
contributes the size of the link object itself (never its target's
content), a regular file its reported size, a directory node nothing of
its own; entries whose stat raises contribute zero, and an unlistable
subdirectory contributes the empty iteration.  `rglob` never descends
through symlinked directories. -/
def nodeSize : Entry → Nat
  | .file _ size statOk => if statOk then size else 0
  | .symlink _ linkSize _ statOk => if statOk then linkSize else 0
  | .dir _ listOk es => if listOk then nodesSize es else 0
/-- Total size of a list of sibling nodes. -/
def nodesSize : List Entry → Nat
  | [] => 0
  | e :: es => nodeSize e + nodesSize es
end

/-- `FSweepEngine.get_size` on a directory with listability `listOk` and
entries `es`: sums file sizes and symlink link-object sizes over the
subtree without following symlinks; any error is swallowed and the
function always returns (totality of this definition). -/
def get_size (listOk : Bool) (es : List Entry) : Nat :=
  if listOk then nodesSize es else 0

/-! ## The scan traversal (`FSweepEngine.scan`) -/

/-- Python string comparison (lexicographic by code point), the order used
by `walkable_dirs.sort()`. -/
def charListLe : List Char → List Char → Bool
  | [], _ => true
  | _ :: _, [] => false
  | a :: as, b :: bs =>
      if a.toNat < b.toNat then true
      else if b.toNat < a.toNat then false
      else charListLe as bs

/-- Python string less-or-equal. -/
def pyStrLe (a b : String) : Bool := charListLe a.data b.data

/-- Insertion step of the sort of the walkable subdirectory list. -/
def insertPair (q : String × Bool × List Entry) :
    List (String × Bool × List Entry) → List (String × Bool × List Entry)
  | [] => [q]
  | r :: rs => if pyStrLe q.1 r.1 then q :: r :: rs else r :: insertPair q rs

/-- Sort the walkable subdirectory list by name (`walkable_dirs.sort()`). -/
def sortPairs : List (String × Bool × List Entry) → List (String × Bool × List Entry)
  | [] => []
  | q :: qs => insertPair q (sortPairs qs)

theorem pairsWeight_insertPair (q : String × Bool × List Entry)
    (pl : List (String × Bool × List Entry)) :
    pairsWeight (insertPair q pl) = pairsWeight (q :: pl) := by
  induction pl with
  | nil => rfl
  | cons r rs ih =>
      simp only [insertPair]
      split
      · rfl
      · obtain ⟨n, ok, sub⟩ := q
        obtain ⟨n2, ok2, sub2⟩ := r
        simp only [pairsWeight] at *
        omega

theorem pairsWeight_sortPairs (pl : List (String × Bool × List Entry)) :
    pairsWeight (sortPairs pl) = pairsWeight pl := by
  induction pl with
  | nil => rfl
  | cons q qs ih => simp only [sortPairs, pairsWeight_insertPair, pairsWeight, ih]

theorem pairsWeight_filter (p : String × Bool × List Entry → Bool)
    (pl : List (String × Bool × List Entry)) :
    pairsWeight (pl.filter p) ≤ pairsWeight pl := by
  induction pl with
  | nil => simp [List.filter]
  | cons q qs ih =>
      obtain ⟨n, ok, sub⟩ := q
      simp only [List.filter]
      split <;> simp only [pairsWeight] <;> omega

theorem pairsWeight_subdirPairs (es : List Entry) :
    pairsWeight (subdirPairs es) ≤ entriesWeight es := by
  induction es with
  | nil => simp [subdirPairs_nil, pairsWeight, entriesWeight]
  | cons e es ih =>
      cases e with
      | file n s ok =>
          rw [subdirPairs_cons_file]
          simp only [entriesWeight, entryWeight]
          omega
      | symlink n l t ok =>
          rw [subdirPairs_cons_symlink]
          simp only [entriesWeight, entryWeight]
          omega
      | dir n ok sub =>
          rw [subdirPairs_cons_dir]
          simp only [entriesWeight, entryWeight, pairsWeight]
          omega

/-- Eligibility of one subdirectory for the walk (cli.py lines 133-137):
not excluded and not protected.  `rel ++ [q.1]` is the candidate's path
relative to the scan root and `root ++ (rel ++ [q.1])` its resolved
absolute path. -/
def walk_allowed (cfg : SweepConfig) (root : RPath) (rel : RPath)
    (q : String × Bool × List Entry) : Bool :=
  !(is_excluded cfg (rel ++ [q.1]) || is_protected cfg (root ++ (rel ++ [q.1])))

/-- The sorted list of walkable subdirectories of a visited directory
(`walkable_dirs`, after `walkable_dirs.sort()`). -/
def walk_candidates (cfg : SweepConfig) (root : RPath) (rel : RPath)
    (es : List Entry) : List (String × Bool × List Entry) :=
  sortPairs ((subdirPairs es).filter (walk_allowed cfg root rel))

/-- The walkable subdirectories whose name is in the target-folder set
(`matched_dirs`). -/
def matched_pairs (cfg : SweepConfig) (root : RPath) (rel : RPath)
    (es : List Entry) : List (String × Bool × List Entry) :=
  (walk_candidates cfg root rel es).filter fun q => cfg.target_folders.contains q.1

/-- The walkable subdirectories that are descended into:
`dirs[:] = [name for name in walkable_dirs if name not in matched_dirs]`. -/
def descend_pairs (cfg : SweepConfig) (root : RPath) (rel : RPath)
    (es : List Entry) : List (String × Bool × List Entry) :=
  (walk_candidates cfg root rel es).filter fun q =>
    !(((matched_pairs cfg root rel es).map fun r => r.1).contains q.1)

theorem pairsWeight_walk_candidates (cfg : SweepConfig) (root : RPath) (rel : RPath)
    (es : List Entry) : pairsWeight (walk_candidates cfg root rel es) ≤ entriesWeight es :=
  calc pairsWeight (walk_candidates cfg root rel es)
      = pairsWeight ((subdirPairs es).filter (walk_allowed cfg root rel)) :=
        pairsWeight_sortPairs _
    _ ≤ pairsWeight (subdirPairs es) := pairsWeight_filter _ _
    _ ≤ entriesWeight es := pairsWeight_subdirPairs es

mutual
/-- One visited directory of the os.walk loop in `FSweepEngine.scan`
(lines 118-155 of cli.py), emitting the matched items in traversal order
with their sizes.  `rel` is the directory's path relative to the scan
root, `root` the resolved absolute scan root, `ok` whether the directory
can be listed (an unlistable directory is skipped by os.walk and yields
nothing), and `sz` abstracts `FSweepEngine._size_with_index`, which
resolves a matched directory's size through the index cache or a fresh
`get_size`; the traversal itself is independent of the sizes obtained.
Steps, in source order: skip the whole subtree if `.fsweepignore` is
present; keep only subdirectories that are neither excluded nor protected;
sort them; record those whose name is a target folder; descend only into
the remaining ones. -/
def walkDir (cfg : SweepConfig) (root : RPath) (sz : RPath → Bool → List Entry → Nat)
    (rel : RPath) (ok : Bool) (es : List Entry) : List (RPath × Nat) :=
  if !ok then []
  else if hasIgnore es then []
  else
    ((matched_pairs cfg root rel es).map fun q =>
      (rel ++ [q.1], sz (rel ++ [q.1]) q.2.1 q.2.2)) ++
      walkPairs cfg root sz rel (descend_pairs cfg root rel es)
  termination_by entriesWeight es + 1
  decreasing_by
    calc pairsWeight (descend_pairs cfg root rel es)
        ≤ pairsWeight (walk_candidates cfg root rel es) := pairsWeight_filter _ _
      _ ≤ entriesWeight es := pairsWeight_walk_candidates cfg root rel es
      _ < entriesWeight es + 1 := Nat.lt_succ_self _

/-- Walk the surviving subdirectories in order, concatenating their
emissions (the recursive part of the os.walk traversal). -/
def walkPairs (cfg : SweepConfig) (root : RPath) (sz : RPath → Bool → List Entry → Nat)
    (rel : RPath) (pl : List (String × Bool × List Entry)) : List (RPath × Nat) :=
  match pl with
  | [] => []
  | (n, cok, sub) :: rest =>
      walkDir cfg root sz (rel ++ [n]) cok sub ++ walkPairs cfg root sz rel rest
  termination_by pairsWeight pl
  decreasing_by
    all_goals simp only [pairsWeight]
    all_goals omega
end

/-! ## Engine state and `scan` -/

/-- The mutable scan state of `FSweepEngine`: `found_items`, `item_sizes`
(a Python dict, modelled as an insertion-ordered association list) and
`total_bytes`. -/
structure EngineState where
  found_items : List RPath
  item_sizes : List (RPath × Nat)
  total_bytes : Nat
deriving DecidableEq, Repr

/-- Python dict assignment: replace in place if the key is present, else
append. -/
def dict_insert {α β : Type} [DecidableEq α] : List (α × β) → α → β → List (α × β)
  | [], k, v => [(k, v)]
  | (k2, v2) :: rest, k, v =>
      if k = k2 then (k2, v) :: rest else (k2, v2) :: dict_insert rest k v

/-- Python dict lookup. -/
def dict_get {α β : Type} [DecidableEq α] : List (α × β) → α → Option β
  | [], _ => none
  | (k2, v2) :: rest, k => if k = k2 then some v2 else dict_get rest k

/-- The loop-body updates of `FSweepEngine.scan` for one matched item:
append to `found_items`, record in `item_sizes`, add to `total_bytes`. -/
def scan_step (st : EngineState) (e : RPath × Nat) : EngineState :=
  ⟨st.found_items ++ [e.1], dict_insert st.item_sizes e.1 e.2, st.total_bytes + e.2⟩

/-- `FSweepEngine.scan`: reset the three state fields (the previous state
`prev` is discarded, lines 104-106), then traverse.  `rootOk` is whether
the scan root itself can be listed. -/
def scan (prev : EngineState) (cfg : SweepConfig) (root : RPath)
    (sz : RPath → Bool → List Entry → Nat) (rootOk : Bool) (tree : List Entry) : EngineState :=
  (walkDir cfg root sz [] rootOk tree).foldl scan_step ⟨[], [], 0⟩

/-- The size oracle of a scan run with `use_index = False`: every matched
directory is sized afresh with `get_size`. -/
def sizeByGetSize : RPath → Bool → List Entry → Nat :=
  fun _ listOk sub => get_size listOk sub

/-! ## The size index (`_load_scan_index`, `FSweepEngine._size_with_index`)

The index file holds JSON.  `json.loads` can produce any JSON value, so the
model takes an optional JSON value: `none` stands for a missing or
unreadable file or one whose contents fail to parse (`OSError` and
`json.JSONDecodeError` are both caught and yield an empty cache). -/

/-- A JSON value as produced by `json.loads`.  JSON numbers that are not
integers never satisfy the `isinstance(_, int)` checks of the loader and
behave like the catch-all case, so they are not distinguished here. -/
inductive JVal where
  | jnull
  | jbool (b : Bool)
  | jint (n : Int)
  | jstr (s : String)
  | jarr (xs : List JVal)
  | jobj (fields : List (String × JVal))

/-- Lookup of a key in a JSON object (`dict.get`; objects read from an
index file have distinct keys). -/
def jlookup : List (String × JVal) → String → Option JVal
  | [], _ => none
  | (k, v) :: rest, key => if key = k then some v else jlookup rest key

/-- The value of a JSON field under Python's `isinstance(x, int)`: an
integer, or a boolean (bool is a subclass of int in Python). -/
def pyInt : Option JVal → Option Int
  | some (.jint n) => some n
  | some (.jbool b) => some (if b then 1 else 0)
  | _ => none

/-- One parsed index entry (`{mtime_ns: ..., size_bytes: ...}`).  The
loader only produces entries carrying both fields, so the
`"size_bytes" in cached_entry` check of `_size_with_index` is represented
by the field being present in this structure. -/
structure IndexEntry where
  mtime_ns : Int
  size_bytes : Int
deriving DecidableEq, Repr

/-- `_load_scan_index` (cli.py lines 848-869).  Returns `none` when the
Python function raises: for a valid-JSON index file whose top level is not
an object, `raw.get("schema_version")` raises `AttributeError`, which no
handler catches.  Otherwise: a missing/unreadable/undecodable file, a
schema-version mismatch, or a non-object `entries` field all degrade to
the empty cache, and malformed individual entries are skipped. -/
def load_scan_index : Option JVal → Option (List (String × IndexEntry))
  | none => some []
  | some raw =>
      match raw with
      | .jobj fields =>
          match jlookup fields "schema_version" with
          | some (.jstr v) =>
              if v = "1" then
                match (jlookup fields "entries").getD (.jobj []) with
                | .jobj efields =>
                    some (efields.filterMap fun kv =>
                      match kv.2 with
                      | .jobj e2 =>
                          match pyInt (jlookup e2 "mtime_ns"), pyInt (jlookup e2 "size_bytes") with
                          | some m, some s => some (kv.1, IndexEntry.mk m s)
                          | _, _ => none
                      | _ => none)
                | _ => some []
              else some []
          | _ => some []
      | _ => none

/-- `FSweepEngine._size_with_index` (cli.py lines 267-290).  `path_key` is
the string form of the resolved matched path, `mtime_ns` the directory's
current mtime (`_directory_mtime_ns`), and `fresh_size` the value
`self.get_size(path)` would compute; the cached size is used only on an
exact mtime match, any other situation recomputes.  Returns the size used
and the updated index. -/
def size_with_index (path_key : String) (mtime_ns : Int)
    (scan_index : List (String × IndexEntry)) (updated_index : List (String × IndexEntry))
    (use_index : Bool) (fresh_size : Int) : Int × List (String × IndexEntry) :=
  if use_index then
    match dict_get scan_index path_key with
    | some cached_entry =>
        if cached_entry.mtime_ns = mtime_ns then
          (cached_entry.size_bytes,
           dict_insert updated_index path_key ⟨mtime_ns, cached_entry.size_bytes⟩)
        else
          (fresh_size, dict_insert updated_index path_key ⟨mtime_ns, fresh_size⟩)
    | none => (fresh_size, dict_insert updated_index path_key ⟨mtime_ns, fresh_size⟩)
  else (fresh_size, updated_index)

/-! ## Cleanup (`FSweepEngine.cleanup`, `_cleanup_one`, `_move_to_trash`,
`_unique_path`)

Filesystem effects are modelled with oracles: `reply` says how the
operating system answers the rmtree/move call for an item, `occ` whether a
candidate trash destination already exists, and `dest` gives the
destination `_move_to_trash` computes per item.  The mutations the engine
performs are returned explicitly, so that dry-run and refusal behaviour
can assert that none happened. -/

/-- Result record for one matched folder (`ItemResult`). -/
structure ItemResult where
  path : RPath
  status : String
  error : Option String
  trash_destination : Option RPath
deriving DecidableEq, Repr

/-- Outcome counters of a cleanup run (`CleanupStats`); note the source
dataclass has exactly these four counters. -/
structure CleanupStats where
  deleted : Nat
  trashed : Nat
  skipped : Nat
  failed : Nat
deriving DecidableEq, Repr

/-- A filesystem mutation performed by the tool.  Creation of intermediate
parent directories for a move is folded into the move event; `writeIndex`
is the rewrite of the `.fsweep-index.json` cache file at the end of a
scan. -/
inductive Mutation where
  | mkdirP (p : RPath)
  | rmtree (p : RPath)
  | move (src dst : RPath)
  | writeIndex
deriving DecidableEq, Repr

/-- How the operating system answers a destructive call on one item:
success, `FileNotFoundError`, or another `PermissionError`/`OSError` with
its message. -/
inductive OsReply where
  | ok
  | notFound
  | oserr (msg : String)
deriving DecidableEq, Repr

/-- Name of the last component of a path (`path.name`). -/
def leafName (p : RPath) : String := (p.getLast?).getD ""

/-- The candidate `path.with_name(path.name ++ "-" ++ counter)` tried by
`_unique_path`. -/
def with_suffix (p : RPath) (k : Nat) : RPath :=
  p.dropLast ++ [leafName p ++ "-" ++ Nat.repr k]

/-- `FSweepEngine._unique_path`: starting from counter 1, return the first
suffixed candidate that does not exist.  The source loops unboundedly; on
a real filesystem only finitely many names exist, which is the supplied
termination evidence `h`. -/
def unique_path (occ : RPath → Bool) (p : RPath)
    (h : ∃ k, occ (with_suffix p (k + 1)) = false) : RPath :=
  with_suffix p (Nat.find h + 1)

/-- The destination `FSweepEngine._move_to_trash` computes: the trash root
joined with the item's path relative to the scan root (items are already
relative here), uniquified if it exists. -/
def move_to_trash_dest (trash_root : RPath) (occ : RPath → Bool) (item : RPath)
    (h : ∃ k, occ (with_suffix (trash_root ++ item) (k + 1)) = false) : RPath :=
  if occ (trash_root ++ item) then unique_path occ (trash_root ++ item) h
  else trash_root ++ item

/-- `FSweepEngine._cleanup_one`: trash mode moves the item to its computed
destination (raising, hence failing, if the trash root was never
initialized); delete mode removes the tree.  `FileNotFoundError` maps to
"skipped" and other OS errors to "failed" with the message captured. -/
def cleanup_one (trash : Bool) (trash_root : Option RPath) (dest : RPath → RPath)
    (reply : RPath → OsReply) (item : RPath) : ItemResult × List Mutation :=
  if trash then
    match trash_root with
    | none => (⟨item, "failed", some "trash root not initialized", none⟩, [])
    | some _ =>
        match reply item with
        | .ok => (⟨item, "trashed", none, some (dest item)⟩, [.move item (dest item)])
        | .notFound => (⟨item, "skipped", none, none⟩, [])
        | .oserr msg => (⟨item, "failed", some msg, none⟩, [])
  else
    match reply item with
    | .ok => (⟨item, "deleted", none, none⟩, [.rmtree item])
    | .notFound => (⟨item, "skipped", none, none⟩, [])
    | .oserr msg => (⟨item, "failed", some msg, none⟩, [])

/-- The per-status counter update of the cleanup loop (cli.py lines
189-196): one of the four counters is bumped, with "failed" the catch-all
branch. -/
def bump_stats (stats : CleanupStats) (status : String) : CleanupStats :=
  if status == "deleted" then ⟨stats.deleted + 1, stats.trashed, stats.skipped, stats.failed⟩
  else if status == "trashed" then ⟨stats.deleted, stats.trashed + 1, stats.skipped, stats.failed⟩
  else if status == "skipped" then ⟨stats.deleted, stats.trashed, stats.skipped + 1, stats.failed⟩
  else ⟨stats.deleted, stats.trashed, stats.skipped, stats.failed + 1⟩

/-- One iteration of the cleanup loop: in dry-run the item is marked
"simulated" and the `skipped` counter is bumped without touching the
filesystem; otherwise `_cleanup_one` runs and its status is tallied. -/
def cleanup_loop_step (dry_run trash : Bool) (trash_root : Option RPath)
    (dest : RPath → RPath) (reply : RPath → OsReply)
    (acc : CleanupStats × List ItemResult × List Mutation) (item : RPath) :
    CleanupStats × List ItemResult × List Mutation :=
  if dry_run then
    (⟨acc.1.deleted, acc.1.trashed, acc.1.skipped + 1, acc.1.failed⟩,
     acc.2.1 ++ [⟨item, "simulated", none, none⟩], acc.2.2)
  else
    let r := cleanup_one trash trash_root dest reply item
    (bump_stats acc.1 r.1.status, acc.2.1 ++ [r.1], acc.2.2 ++ r.2)

/-- `FSweepEngine.cleanup` (cli.py lines 169-202): the session trash root
is created only for a destructive trash run; the selection defaults to all
found items; one outcome is produced per item, in order. -/
def cleanup (found_items : List RPath) (items : Option (List RPath)) (dry_run trash : Bool)
    (trash_root_path : RPath) (dest : RPath → RPath) (reply : RPath → OsReply) :
    CleanupStats × List ItemResult × List Mutation :=
  let trash_root : Option RPath := if trash && !dry_run then some trash_root_path else none
  let initMuts : List Mutation := if trash && !dry_run then [.mkdirP trash_root_path] else []
  let selected : List RPath := match items with | some l => l | none => found_items
  selected.foldl (cleanup_loop_step dry_run trash trash_root dest reply) (⟨0, 0, 0, 0⟩, [], initMuts)

/-! ## The `clean` CLI command -/

/-- The flags of one `clean` invocation that the guard logic inspects. -/
structure CleanInvocation where
  force : Bool
  dry_run : Bool
  no_dry_run : Bool
  trash : Bool
  interactive : Bool
  outputJson : Bool
  use_index : Bool
  yes_delete : Bool
  best_effort : Bool
  no_delete_limit : Bool

/-- The environment one `clean` run sees: path checks, the effective
merged configuration, the scan result, the interactive selection, the
confirmation answer and the cleanup oracles. -/
structure CleanEnv where
  pathExists : Bool
  isFsRoot : Bool
  isHomeRoot : Bool
  configError : Bool
  cfg : SweepConfig
  scanFound : List RPath
  pick : List RPath → List RPath
  confirmAnswer : Bool
  trashRootPath : RPath
  dest : RPath → RPath
  reply : RPath → OsReply

/-- Result of one `clean` run: an error exit (`_exit_with_error`, which
raises `typer.Exit(code)`), a user abort at the confirmation prompt, or a
completed run; each carries the filesystem mutations performed up to that
point. -/
inductive CleanResult where
  | errorExit (code : Nat) (muts : List Mutation)
  | abortedByUser (muts : List Mutation)
  | completed (stats : CleanupStats) (results : List ItemResult) (exitCode : Nat)
      (muts : List Mutation)
deriving DecidableEq, Repr

/-- The selection a `clean` run acts on: all scan matches, narrowed by the
interactive picker when `--interactive` is set and something matched. -/
def selected_items (inv : CleanInvocation) (env : CleanEnv) : List RPath :=
  if inv.interactive && !env.scanFound.isEmpty then env.pick env.scanFound else env.scanFound

/-- The `clean` command (cli.py lines 293-607), modelling the guard
sequence in source order: json/interactive conflict, path existence,
filesystem-root and home refusals, config errors, the `--yes-delete`
requirement, the json/force requirement, then the scan (which rewrites the
index cache file when indexing is enabled), the empty-selection early
return, the max-delete-count refusal, the confirmation prompt, the cleanup
itself, and the exit-code-2 rule for runs with failures without
`--best-effort`. -/
def clean (inv : CleanInvocation) (env : CleanEnv) : CleanResult :=
  let effective_dry_run := inv.dry_run && !inv.no_dry_run
  if inv.outputJson && inv.interactive then .errorExit 1 []
  else if !env.pathExists then .errorExit 1 []
  else if env.isFsRoot then .errorExit 1 []
  else if env.isHomeRoot then .errorExit 1 []
  else if env.configError then .errorExit 1 []
  else
    let max_delete_count := env.cfg.max_delete_count
    let no_delete_limit := inv.no_delete_limit || env.cfg.no_delete_limit
    let destructive_mode := !effective_dry_run
    if destructive_mode && !inv.yes_delete then .errorExit 1 []
    else if inv.outputJson && destructive_mode && !inv.force then .errorExit 1 []
    else
      let scanMuts : List Mutation := if inv.use_index then [.writeIndex] else []
      let selected := selected_items inv env
      if selected.isEmpty then .completed ⟨0, 0, 0, 0⟩ [] 0 scanMuts
      else if destructive_mode && !no_delete_limit
          && decide (max_delete_count < selected.length) then
        .errorExit 1 scanMuts
      else if destructive_mode && !inv.force && !env.confirmAnswer then
        .abortedByUser scanMuts
      else
        let out := cleanup env.scanFound (some selected) effective_dry_run inv.trash
          env.trashRootPath env.dest env.reply
        if 0 < out.1.failed && !inv.best_effort then
          .errorExit 2 (scanMuts ++ out.2.2)
        else
          .completed out.1 out.2.1 0 (scanMuts ++ out.2.2)

/-! ## Helper lemmas about the sorted walkable list -/

theorem insertPair_perm (q : String × Bool × List Entry)
    (pl : List (String × Bool × List Entry)) : (insertPair q pl).Perm (q :: pl) := by
  induction pl with
  | nil => exact List.Perm.refl _
  | cons r rs ih =>
      simp only [insertPair]
      split
      · exact List.Perm.refl _
      · exact (List.Perm.cons r ih).trans (List.Perm.swap q r rs)

theorem sortPairs_perm (pl : List (String × Bool × List Entry)) :
    (sortPairs pl).Perm pl := by
  induction pl with
  | nil => exact List.Perm.refl _
  | cons q qs ih => exact (insertPair_perm q (sortPairs qs)).trans (List.Perm.cons q ih)

theorem mem_sortPairs {q : String × Bool × List Entry}
    {pl : List (String × Bool × List Entry)} : q ∈ sortPairs pl ↔ q ∈ pl :=
  (sortPairs_perm pl).mem_iff

theorem mem_subdirPairs {n : String} {cok : Bool} {sub : List Entry} {es : List Entry}
    (h : (n, cok, sub) ∈ subdirPairs es) : Entry.dir n cok sub ∈ es := by
  induction es with
  | nil => simp [subdirPairs_nil] at h
  | cons e es ih =>
      cases e with
      | file n2 s ok2 =>
          rw [subdirPairs_cons_file] at h
          exact List.mem_cons_of_mem _ (ih h)
      | symlink n2 l t ok2 =>
          rw [subdirPairs_cons_symlink] at h
          exact List.mem_cons_of_mem _ (ih h)
      | dir n2 ok2 sub2 =>
          rw [subdirPairs_cons_dir] at h
          rcases List.mem_cons.1 h with h1 | h2
          · cases h1; exact List.mem_cons_self _ _
          · exact List.mem_cons_of_mem _ (ih h2)

theorem mem_walk_candidates {cfg : SweepConfig} {root rel : RPath} {es : List Entry}
    {q : String × Bool × List Entry} (h : q ∈ walk_candidates cfg root rel es) :
    q ∈ subdirPairs es ∧ walk_allowed cfg root rel q = true := by
  unfold walk_candidates at h
  exact List.mem_filter.1 (mem_sortPairs.1 h)

theorem mem_matched_pairs {cfg : SweepConfig} {root rel : RPath} {es : List Entry}
    {q : String × Bool × List Entry} (h : q ∈ matched_pairs cfg root rel es) :
    q ∈ walk_candidates cfg root rel es ∧ cfg.target_folders.contains q.1 = true :=
  List.mem_filter.1 h

theorem contains_false_not_mem {α : Type} [BEq α] [LawfulBEq α] {l : List α} {a : α}
    (h : l.contains a = false) : a ∉ l := by
  intro hm
  have h2 : l.contains a = true := List.elem_iff.2 hm
  rw [h] at h2
  cases h2

theorem mem_descend_pairs {cfg : SweepConfig} {root rel : RPath} {es : List Entry}
    {q : String × Bool × List Entry} (h : q ∈ descend_pairs cfg root rel es) :
    q ∈ walk_candidates cfg root rel es ∧
      q.1 ∉ (matched_pairs cfg root rel es).map fun r => r.1 := by
  have h2 := List.mem_filter.1 h
  refine ⟨h2.1, ?_⟩
  have h3 := h2.2
  simp only [Bool.not_eq_true'] at h3
  exact contains_false_not_mem h3

/-! ## Well-formedness lemmas -/

theorem wfEntries_cons {e : Entry} {es : List Entry} (h : wfEntries (e :: es) = true) :
    (es.map entryName).contains (entryName e) = false ∧ wfEntry e = true ∧
      wfEntries es = true := by
  have h2 : (!((es.map entryName).contains (entryName e)) && wfEntry e && wfEntries es) = true := h
  simp only [Bool.and_eq_true, Bool.not_eq_true'] at h2
  exact ⟨h2.1.1, h2.1.2, h2.2⟩

theorem wfEntries_mem_dir {es : List Entry} {n : String} {cok : Bool} {sub : List Entry}
    (hwf : wfEntries es = true) (hmem : Entry.dir n cok sub ∈ es) :
    wfEntries sub = true := by
  induction es with
  | nil => cases hmem
  | cons e es ih =>
      obtain ⟨_, hwfe, hwfes⟩ := wfEntries_cons hwf
      rcases List.mem_cons.1 hmem with h1 | h2
      · subst h1; exact hwfe
      · exact ih hwfes h2

theorem wfEntries_names_nodup {es : List Entry} (hwf : wfEntries es = true) :
    (es.map entryName).Nodup := by
  induction es with
  | nil => simp
  | cons e es ih =>
      obtain ⟨hni, _, hwfes⟩ := wfEntries_cons hwf
      rw [List.map_cons, List.nodup_cons]
      refine ⟨?_, ih hwfes⟩
      intro hmem
      exact contains_false_not_mem hni hmem

theorem subdirPairs_names_sublist (es : List Entry) :
    ((subdirPairs es).map fun q => q.1).Sublist (es.map entryName) := by
  induction es with
  | nil => simp [subdirPairs_nil]
  | cons e es ih =>
      cases e with
      | file n s ok =>
          rw [subdirPairs_cons_file, List.map_cons]
          exact ih.cons _
      | symlink n l t ok =>
          rw [subdirPairs_cons_symlink, List.map_cons]
          exact ih.cons _
      | dir n ok sub =>
          rw [subdirPairs_cons_dir, List.map_cons, List.map_cons]
          exact ih.cons₂ _

theorem walk_candidates_names_nodup (cfg : SweepConfig) (root rel : RPath)
    {es : List Entry} (hwf : wfEntries es = true) :
    ((walk_candidates cfg root rel es).map fun q => q.1).Nodup := by
  have h1 : (((subdirPairs es).filter (walk_allowed cfg root rel)).map fun q => q.1).Nodup := by
    refine List.Nodup.sublist (List.Sublist.map _ ?_) (((subdirPairs_names_sublist es).nodup
      (wfEntries_names_nodup hwf)))
    exact List.filter_sublist _
  exact (((sortPairs_perm _).map fun q => q.1).nodup_iff).2 h1

theorem matched_pairs_names_nodup (cfg : SweepConfig) (root rel : RPath)
    {es : List Entry} (hwf : wfEntries es = true) :
    ((matched_pairs cfg root rel es).map fun q => q.1).Nodup :=
  List.Nodup.sublist (List.Sublist.map _ (List.filter_sublist _))
    (walk_candidates_names_nodup cfg root rel hwf)

theorem descend_pairs_names_nodup (cfg : SweepConfig) (root rel : RPath)
    {es : List Entry} (hwf : wfEntries es = true) :
    ((descend_pairs cfg root rel es).map fun q => q.1).Nodup :=
  List.Nodup.sublist (List.Sublist.map _ (List.filter_sublist _))
    (walk_candidates_names_nodup cfg root rel hwf)

theorem wf_walk_candidates {cfg : SweepConfig} {root rel : RPath} {es : List Entry}
    {q : String × Bool × List Entry} (hwf : wfEntries es = true)
    (h : q ∈ walk_candidates cfg root rel es) : wfEntries q.2.2 = true := by
  obtain ⟨h1, _⟩ := mem_walk_candidates h
  obtain ⟨n, cok, sub⟩ := q
  exact wfEntries_mem_dir hwf (mem_subdirPairs h1)

/-! ## Prefix helpers -/

theorem not_prefix_append_cons {rel : RPath} {x y : String} {u v : List String}
    (hxy : x ≠ y) : ¬ ((rel ++ x :: u) <+: (rel ++ y :: v)) := by
  intro h
  rw [List.prefix_append_right_inj] at h
  exact hxy (List.cons_prefix_cons.1 h).1

theorem prefix_singleton_cases {α : Type} {u : List α} {a : α} (h : u <+: [a]) :
    u = [] ∨ u = [a] := by
  cases u with
  | nil => exact Or.inl rfl
  | cons b bs =>
      obtain ⟨hab, hbs⟩ := List.cons_prefix_cons.1 h
      subst hab
      rw [List.prefix_nil] at hbs
      subst hbs
      exact Or.inr rfl

theorem eq_append_singleton_of_prefix {rel e : RPath} {x : String}
    (h1 : rel <+: e) (h2 : e ≠ rel) (h3 : e <+: rel ++ [x]) : e = rel ++ [x] := by
  obtain ⟨u, rfl⟩ := h1
  rw [List.prefix_append_right_inj] at h3
  rcases prefix_singleton_cases h3 with h4 | h4
  · subst h4; exact absurd (by simp) h2
  · rw [h4]

theorem prefix_cons_decompose {rel e : RPath} {n : String} {w : List String}
    (h1 : rel <+: e) (h2 : e ≠ rel) (h3 : e <+: rel ++ n :: w) :
    ∃ u, e = (rel ++ [n]) ++ u := by
  obtain ⟨u, rfl⟩ := h1
  rw [List.prefix_append_right_inj] at h3
  cases u with
  | nil => exact absurd (by simp) h2
  | cons m u2 =>
      obtain ⟨hm, _⟩ := List.cons_prefix_cons.1 h3
      subst hm
      exact ⟨u2, by simp⟩

/-! ## Walk equation lemmas -/

theorem walkDir_eq (cfg : SweepConfig) (root : RPath) (sz : RPath → Bool → List Entry → Nat)
    (rel : RPath) (ok : Bool) (es : List Entry) :
    walkDir cfg root sz rel ok es =
      if !ok then []
      else if hasIgnore es then []
      else
        ((matched_pairs cfg root rel es).map fun q =>
          (rel ++ [q.1], sz (rel ++ [q.1]) q.2.1 q.2.2)) ++
          walkPairs cfg root sz rel (descend_pairs cfg root rel es) := by
  rw [walkDir.eq_def]

theorem walkPairs_nil (cfg : SweepConfig) (root : RPath)
    (sz : RPath → Bool → List Entry → Nat) (rel : RPath) :
    walkPairs cfg root sz rel [] = [] := by
  rw [walkPairs.eq_def]

theorem walkPairs_cons (cfg : SweepConfig) (root : RPath)
    (sz : RPath → Bool → List Entry → Nat) (rel : RPath) (n : String) (cok : Bool)
    (sub : List Entry) (rest : List (String × Bool × List Entry)) :
    walkPairs cfg root sz rel ((n, cok, sub) :: rest) =
      walkDir cfg root sz (rel ++ [n]) cok sub ++ walkPairs cfg root sz rel rest := by
  rw [walkPairs.eq_def]

/-! ## Shape of the walk output -/

mutual
theorem walkDir_shape (cfg : SweepConfig) (root : RPath)
    (sz : RPath → Bool → List Entry → Nat) (rel : RPath) (ok : Bool) (es : List Entry) :
    ∀ p ∈ walkDir cfg root sz rel ok es, ∃ n t, p.1 = rel ++ n :: t := by
  intro p hp
  rw [walkDir_eq] at hp
  split at hp
  · cases hp
  · split at hp
    · cases hp
    · rcases List.mem_append.1 hp with h | h
      · rcases List.mem_map.1 h with ⟨q, _, rfl⟩
        exact ⟨q.1, [], rfl⟩
      · obtain ⟨q, _, t, ht⟩ := walkPairs_shape cfg root sz rel (descend_pairs cfg root rel es) p h
        exact ⟨q.1, t, ht⟩
  termination_by entriesWeight es + 1
  decreasing_by
    calc pairsWeight (descend_pairs cfg root rel es)
        ≤ pairsWeight (walk_candidates cfg root rel es) := pairsWeight_filter _ _
      _ ≤ entriesWeight es := pairsWeight_walk_candidates cfg root rel es
      _ < entriesWeight es + 1 := Nat.lt_succ_self _

theorem walkPairs_shape (cfg : SweepConfig) (root : RPath)
    (sz : RPath → Bool → List Entry → Nat) (rel : RPath)
    (pl : List (String × Bool × List Entry)) :
    ∀ p ∈ walkPairs cfg root sz rel pl, ∃ q ∈ pl, ∃ t, p.1 = rel ++ q.1 :: t := by
  match pl with
  | [] =>
      intro p hp
      rw [walkPairs_nil] at hp
      cases hp
  | (n, cok, sub) :: rest =>
      intro p hp
      rw [walkPairs_cons] at hp
      rcases List.mem_append.1 hp with h | h
      · obtain ⟨m, t, ht⟩ := walkDir_shape cfg root sz (rel ++ [n]) cok sub p h
        refine ⟨(n, cok, sub), List.mem_cons_self _ _, m :: t, ?_⟩
        rw [ht]
        simp
      · obtain ⟨q, hq, t, ht⟩ := walkPairs_shape cfg root sz rel rest p h
        exact ⟨q, List.mem_cons_of_mem _ hq, t, ht⟩
  termination_by pairsWeight pl
  decreasing_by
    all_goals simp only [pairsWeight]
    all_goals omega
end

/-! ## Every ancestor of an emitted item passed the exclusion and
protection filter -/

mutual
theorem walkDir_pass (cfg : SweepConfig) (root : RPath)
    (sz : RPath → Bool → List Entry → Nat) (rel : RPath) (ok : Bool) (es : List Entry) :
    ∀ p ∈ walkDir cfg root sz rel ok es, ∀ e : RPath, rel <+: e → e ≠ rel → e <+: p.1 →
      (is_excluded cfg e || is_protected cfg (root ++ e)) = false := by
  intro p hp e h1 h2 h3
  rw [walkDir_eq] at hp
  split at hp
  · cases hp
  · split at hp
    · cases hp
    · rcases List.mem_append.1 hp with h | h
      · rcases List.mem_map.1 h with ⟨q, hq, rfl⟩
        have he : e = rel ++ [q.1] := eq_append_singleton_of_prefix h1 h2 h3
        obtain ⟨hcand, _⟩ := mem_matched_pairs hq
        obtain ⟨_, hallow⟩ := mem_walk_candidates hcand
        subst he
        simpa [walk_allowed, Bool.not_eq_true'] using hallow
      · exact walkPairs_pass cfg root sz rel (descend_pairs cfg root rel es)
          (fun q hq => by
            obtain ⟨hcand, _⟩ := mem_descend_pairs hq
            obtain ⟨_, hallow⟩ := mem_walk_candidates hcand
            simpa [walk_allowed, Bool.not_eq_true'] using hallow)
          p h e h1 h2 h3
  termination_by entriesWeight es + 1
  decreasing_by
    calc pairsWeight (descend_pairs cfg root rel es)
        ≤ pairsWeight (walk_candidates cfg root rel es) := pairsWeight_filter _ _
      _ ≤ entriesWeight es := pairsWeight_walk_candidates cfg root rel es
      _ < entriesWeight es + 1 := Nat.lt_succ_self _

theorem walkPairs_pass (cfg : SweepConfig) (root : RPath)
    (sz : RPath → Bool → List Entry → Nat) (rel : RPath)
    (pl : List (String × Bool × List Entry))
    (hall : ∀ q ∈ pl,
      (is_excluded cfg (rel ++ [q.1]) || is_protected cfg (root ++ (rel ++ [q.1]))) = false) :
    ∀ p ∈ walkPairs cfg root sz rel pl, ∀ e : RPath, rel <+: e → e ≠ rel → e <+: p.1 →
      (is_excluded cfg e || is_protected cfg (root ++ e)) = false := by
  match pl with
  | [] =>
      intro p hp
      rw [walkPairs_nil] at hp
      cases hp
  | (n, cok, sub) :: rest =>
      intro p hp e h1 h2 h3
      rw [walkPairs_cons] at hp
      rcases List.mem_append.1 hp with h | h
      · obtain ⟨m, t, ht⟩ := walkDir_shape cfg root sz (rel ++ [n]) cok sub p h
        have h3w : e <+: rel ++ n :: m :: t := by
          rw [ht] at h3
          simpa using h3
        obtain ⟨u, hu⟩ := prefix_cons_decompose h1 h2 h3w
        by_cases hu0 : u = []
        · subst hu0
          have hhd := hall (n, cok, sub) (List.mem_cons_self _ _)
          rw [hu]
          simpa using hhd
        · refine walkDir_pass cfg root sz (rel ++ [n]) cok sub p h e ?_ ?_ h3
          · exact ⟨u, hu.symm⟩
          · intro hEq
            apply hu0
            have := hu.symm.trans hEq
            have hlen := congrArg List.length this
            simp at hlen
            exact hlen
      · exact walkPairs_pass cfg root sz rel rest
          (fun q hq => hall q (List.mem_cons_of_mem _ hq)) p h e h1 h2 h3
  termination_by pairsWeight pl
  decreasing_by
    all_goals simp only [pairsWeight]
    all_goals omega
end

/-! ## Pairwise non-nesting of emitted items -/

/-- Two emitted items are unrelated: neither path is a prefix of the
other (so neither is the other or one of its descendants). -/
def walkR (a b : RPath × Nat) : Prop := ¬ (a.1 <+: b.1) ∧ ¬ (b.1 <+: a.1)

mutual
theorem walkDir_pairwise (cfg : SweepConfig) (root : RPath)
    (sz : RPath → Bool → List Entry → Nat) (rel : RPath) (ok : Bool) (es : List Entry)
    (hwf : wfEntries es = true) :
    (walkDir cfg root sz rel ok es).Pairwise walkR := by
  rw [walkDir_eq]
  split
  · exact List.Pairwise.nil
  · split
    · exact List.Pairwise.nil
    · refine List.pairwise_append.2 ⟨?_, ?_, ?_⟩
      · refine List.pairwise_map.2 ?_
        have hpw : (matched_pairs cfg root rel es).Pairwise fun a b => a.1 ≠ b.1 :=
          List.pairwise_map.1 (matched_pairs_names_nodup cfg root rel hwf)
        refine hpw.imp ?_
        intro a b hab
        exact ⟨not_prefix_append_cons hab, not_prefix_append_cons (Ne.symm hab)⟩
      · refine walkPairs_pairwise cfg root sz rel (descend_pairs cfg root rel es) ?_ ?_
        · exact List.pairwise_map.1 (descend_pairs_names_nodup cfg root rel hwf)
        · intro q hq
          exact wf_walk_candidates hwf (mem_descend_pairs hq).1
      · intro a ha b hb
        rcases List.mem_map.1 ha with ⟨q, hq, rfl⟩
        obtain ⟨r, hr, t, ht⟩ :=
          walkPairs_shape cfg root sz rel (descend_pairs cfg root rel es) b hb
        have hne : q.1 ≠ r.1 := by
          intro hEq
          obtain ⟨_, hnotm⟩ := mem_descend_pairs hr
          exact hnotm (hEq ▸ List.mem_map_of_mem _ hq)
        constructor
        · rw [ht]
          exact not_prefix_append_cons hne
        · rw [ht]
          exact not_prefix_append_cons (Ne.symm hne)
  termination_by entriesWeight es + 1
  decreasing_by
    calc pairsWeight (descend_pairs cfg root rel es)
        ≤ pairsWeight (walk_candidates cfg root rel es) := pairsWeight_filter _ _
      _ ≤ entriesWeight es := pairsWeight_walk_candidates cfg root rel es
      _ < entriesWeight es + 1 := Nat.lt_succ_self _

theorem walkPairs_pairwise (cfg : SweepConfig) (root : RPath)
    (sz : RPath → Bool → List Entry → Nat) (rel : RPath)
    (pl : List (String × Bool × List Entry))
    (hnames : pl.Pairwise fun a b => a.1 ≠ b.1)
    (hwfall : ∀ q ∈ pl, wfEntries q.2.2 = true) :
    (walkPairs cfg root sz rel pl).Pairwise walkR := by
  match pl with
  | [] =>
      rw [walkPairs_nil]
      exact List.Pairwise.nil
  | (n, cok, sub) :: rest =>
      rw [walkPairs_cons]
      refine List.pairwise_append.2 ⟨?_, ?_, ?_⟩
      · exact walkDir_pairwise cfg root sz (rel ++ [n]) cok sub
          (hwfall _ (List.mem_cons_self _ _))
      · exact walkPairs_pairwise cfg root sz rel rest (List.Pairwise.of_cons hnames)
          (fun q hq => hwfall q (List.mem_cons_of_mem _ hq))
      · intro a ha b hb
        obtain ⟨m, t, ht⟩ := walkDir_shape cfg root sz (rel ++ [n]) cok sub a ha
        obtain ⟨r, hr, t2, ht2⟩ := walkPairs_shape cfg root sz rel rest b hb
        have hne : n ≠ r.1 := (List.pairwise_cons.1 hnames).1 r hr
        have ha1 : a.1 = rel ++ n :: (m :: t) := by
          rw [ht]
          simp
        constructor
        · rw [ha1, ht2]
          exact not_prefix_append_cons hne
        · rw [ha1, ht2]
          exact not_prefix_append_cons (Ne.symm hne)
  termination_by pairsWeight pl
  decreasing_by
    all_goals simp only [pairsWeight]
    all_goals omega
end

/-! ## Scan state lemmas -/

theorem dict_insert_absent {α β : Type} [DecidableEq α] {d : List (α × β)} {k : α}
    (v : β) (h : k ∉ d.map Prod.fst) : dict_insert d k v = d ++ [(k, v)] := by
  induction d with
  | nil => rfl
  | cons e rest ih =>
      obtain ⟨k2, v2⟩ := e
      have hne : k ≠ k2 := by
        intro hEq
        exact h (by simp [hEq])
      simp only [dict_insert, if_neg hne, List.cons_append]
      rw [ih (fun hm => h (by simp [List.mem_map] at hm ⊢; tauto))]

theorem foldl_scan_step_found (ev : List (RPath × Nat)) :
    ∀ st : EngineState, (ev.foldl scan_step st).found_items = st.found_items ++ ev.map Prod.fst := by
  induction ev with
  | nil => intro st; simp
  | cons e rest ih =>
      intro st
      rw [List.foldl_cons, ih]
      simp [scan_step]

theorem foldl_scan_step_total (ev : List (RPath × Nat)) :
    ∀ st : EngineState, (ev.foldl scan_step st).total_bytes =
      st.total_bytes + (ev.map Prod.snd).sum := by
  induction ev with
  | nil => intro st; simp
  | cons e rest ih =>
      intro st
      rw [List.foldl_cons, ih]
      simp [scan_step]
      omega

theorem foldl_scan_step_sizes (ev : List (RPath × Nat)) :
    ∀ st : EngineState, (ev.map Prod.fst).Nodup →
      (∀ k ∈ ev.map Prod.fst, k ∉ st.item_sizes.map Prod.fst) →
      (ev.foldl scan_step st).item_sizes = st.item_sizes ++ ev := by
  induction ev with
  | nil => intro st _ _; simp
  | cons e rest ih =>
      intro st hnd hdisj
      rw [List.foldl_cons]
      have hstep : (scan_step st e).item_sizes = st.item_sizes ++ [e] := by
        simp only [scan_step]
        have habs : e.1 ∉ st.item_sizes.map Prod.fst :=
          hdisj e.1 (by simp)
        obtain ⟨k0, v0⟩ := e
        exact dict_insert_absent v0 habs
      have hnd2 : (rest.map Prod.fst).Nodup := (List.nodup_cons.1 (by simpa using hnd)).2
      have hhd : e.1 ∉ rest.map Prod.fst := (List.nodup_cons.1 (by simpa using hnd)).1
      rw [ih (scan_step st e) hnd2 ?_, hstep]
      · simp
      · intro k hk
        rw [hstep]
        intro hmem
        rw [List.map_append] at hmem
        rcases List.mem_append.1 hmem with hm | hm
        · exact hdisj k (List.mem_cons_of_mem _ hk) hm
        · simp at hm
          exact hhd (hm ▸ hk)

theorem dict_get_cons_self {β : Type} (k : RPath) (v : β) (rest : List (RPath × β)) :
    dict_get ((k, v) :: rest) k = some v := by
  simp [dict_get]

theorem dict_get_cons_ne {β : Type} {k k2 : RPath} (v2 : β) (rest : List (RPath × β))
    (h : k ≠ k2) : dict_get ((k2, v2) :: rest) k = dict_get rest k := by
  simp [dict_get, h]

theorem dict_get_map_of_nodup (ev : List (RPath × Nat))
    (hnd : (ev.map Prod.fst).Nodup) :
    (ev.map Prod.fst).map (fun p => (dict_get ev p).getD 0) = ev.map Prod.snd := by
  induction ev with
  | nil => rfl
  | cons e rest ih =>
      have hnd2 : (e.1 :: rest.map Prod.fst).Nodup := by
        simpa only [List.map_cons] using hnd
      have hh1 : e.1 ∉ rest.map Prod.fst := (List.nodup_cons.1 hnd2).1
      have hh2 : (rest.map Prod.fst).Nodup := (List.nodup_cons.1 hnd2).2
      obtain ⟨k0, v0⟩ := e
      simp only [List.map_cons]
      congr 1
      · rw [dict_get_cons_self]
        rfl
      · have hcongr : (rest.map Prod.fst).map (fun p => (dict_get ((k0, v0) :: rest) p).getD 0)
            = (rest.map Prod.fst).map (fun p => (dict_get rest p).getD 0) := by
          refine List.map_congr_left ?_
          intro p hp
          have hne : p ≠ k0 := by
            intro hEq
            exact hh1 (hEq ▸ hp)
          rw [dict_get_cons_ne _ _ hne]
        rw [hcongr, ih hh2]

theorem scan_found_items (prev : EngineState) (cfg : SweepConfig) (root : RPath)
    (sz : RPath → Bool → List Entry → Nat) (rootOk : Bool) (tree : List Entry) :
    (scan prev cfg root sz rootOk tree).found_items =
      (walkDir cfg root sz [] rootOk tree).map Prod.fst := by
  unfold scan
  rw [foldl_scan_step_found]
  rfl

theorem walk_keys_nodup (cfg : SweepConfig) (root : RPath)
    (sz : RPath → Bool → List Entry → Nat) (rootOk : Bool) (tree : List Entry)
    (hwf : wfEntries tree = true) :
    ((walkDir cfg root sz [] rootOk tree).map Prod.fst).Nodup := by
  have h := walkDir_pairwise cfg root sz [] rootOk tree hwf
  have h2 : ((walkDir cfg root sz [] rootOk tree).map Prod.fst).Pairwise
      (fun p q => ¬ (p <+: q) ∧ ¬ (q <+: p)) := List.pairwise_map.2 h
  refine h2.imp ?_
  intro a b hab hEq
  exact hab.1 (hEq ▸ List.prefix_refl a)

/-! ## Claim theorems: scan invariants -/

/-- Claim C1: for every directory tree and every SweepConfig, the
matched-item set produced by one scan contains no directory that is a
descendant of another directory in that set (stated as: the found paths
are pairwise non-prefix of one another; a subdirectory whose basename
matches a target-folder name is recorded and never descended into, which
is what makes this hold). -/
theorem claim_C1_no_nested_matches (cfg : SweepConfig) (root : RPath)
    (sz : RPath → Bool → List Entry → Nat) (rootOk : Bool) (tree : List Entry)
    (prev : EngineState) (hwf : wfEntries tree = true) :
    ((scan prev cfg root sz rootOk tree).found_items).Pairwise
      (fun p q => ¬ (p <+: q) ∧ ¬ (q <+: p)) := by
  rw [scan_found_items]
  exact List.pairwise_map.2 (walkDir_pairwise cfg root sz [] rootOk tree hwf)

/-- Demonstration tree for the scan claims: a matched folder with a
nested target below it, and a second project. -/
def demoTree : List Entry :=
  [.dir "project" true
     [.dir "node_modules" true
        [.dir "nested" true [.dir "venv" true [.file "big.bin" 7 true]]],
      .file "app.py" 10 true],
   .dir "project_b" true [.dir "venv" true []]]

/-- Demonstration configuration for the scan claims. -/
def demoCfg : SweepConfig := ⟨["node_modules", "venv"], [], [], 50, false⟩

theorem claim_C1_no_nested_matches_witness :
    wfEntries demoTree = true ∧
      ((scan ⟨[], [], 0⟩ demoCfg ["home", "user", "ws"] sizeByGetSize true
        demoTree).found_items).Pairwise (fun p q => ¬ (p <+: q) ∧ ¬ (q <+: p)) :=
  ⟨by decide, claim_C1_no_nested_matches demoCfg ["home", "user", "ws"] sizeByGetSize true
    demoTree ⟨[], [], 0⟩ (by decide)⟩

/-- Claim C2: a directory (a nonempty path relative to the scan root)
that is excluded or protected never appears in the matched set, and
neither does any directory in its subtree: no found path has it as a
prefix. -/
theorem claim_C2_excluded_protected_pruned (cfg : SweepConfig) (root : RPath)
    (sz : RPath → Bool → List Entry → Nat) (rootOk : Bool) (tree : List Entry)
    (prev : EngineState) (e : RPath) (hne : e ≠ [])
    (hexc : (is_excluded cfg e || is_protected cfg (root ++ e)) = true) :
    ∀ p ∈ (scan prev cfg root sz rootOk tree).found_items, ¬ (e <+: p) := by
  intro p hp hpre
  rw [scan_found_items] at hp
  rcases List.mem_map.1 hp with ⟨pr, hmem, rfl⟩
  have hpass := walkDir_pass cfg root sz [] rootOk tree pr hmem e
    List.nil_prefix hne hpre
  rw [hexc] at hpass
  cases hpass

/-- Demonstration tree for the exclusion/protection claim: an excluded
directory and a protected directory each hold a target folder; an
unaffected project holds one too. -/
def demoTreeEx : List Entry :=
  [.dir "skipme" true [.dir "node_modules" true [.file "a.txt" 4 true]],
   .dir "keep" true [.dir "node_modules" true []],
   .dir "proj" true [.dir "venv" true []]]

/-- Demonstration configuration with an exclude pattern and a protected
path. -/
def demoCfgEx : SweepConfig :=
  ⟨["node_modules", "venv"], ["skip*"], [["home", "user", "ws", "keep"]], 50, false⟩

theorem claim_C2_excluded_protected_pruned_witness :
    (is_excluded demoCfgEx ["skipme"]
      || is_protected demoCfgEx (["home", "user", "ws"] ++ ["skipme"])) = true ∧
    ∀ p ∈ (scan ⟨[], [], 0⟩ demoCfgEx ["home", "user", "ws"] sizeByGetSize true
      demoTreeEx).found_items, ¬ (["skipme"] <+: p) :=
  ⟨by decide,
   claim_C2_excluded_protected_pruned demoCfgEx ["home", "user", "ws"] sizeByGetSize true
     demoTreeEx ⟨[], [], 0⟩ ["skipme"] (by decide) (by decide)⟩

/-- Claim C9: after every call to scan the engine state is internally
consistent: scan discards the previous state (any two previous states
give the same result), the found items are duplicate-free, the keys of
item_sizes are exactly the found items in order, and total_bytes is the
sum of item_sizes over the found items. -/
theorem claim_C9_scan_state_consistent (cfg : SweepConfig) (root : RPath)
    (sz : RPath → Bool → List Entry → Nat) (rootOk : Bool) (tree : List Entry)
    (hwf : wfEntries tree = true) (prev prev2 : EngineState) :
    scan prev cfg root sz rootOk tree = scan prev2 cfg root sz rootOk tree ∧
    (scan prev cfg root sz rootOk tree).found_items.Nodup ∧
    (scan prev cfg root sz rootOk tree).item_sizes.map Prod.fst =
      (scan prev cfg root sz rootOk tree).found_items ∧
    (scan prev cfg root sz rootOk tree).total_bytes =
      (((scan prev cfg root sz rootOk tree).found_items).map
        (fun p => (dict_get (scan prev cfg root sz rootOk tree).item_sizes p).getD 0)).sum := by
  have hnd := walk_keys_nodup cfg root sz rootOk tree hwf
  have hsizes : (scan prev cfg root sz rootOk tree).item_sizes =
      walkDir cfg root sz [] rootOk tree := by
    unfold scan
    rw [foldl_scan_step_sizes _ _ hnd ?_]
    · rfl
    · intro k _ hk
      cases hk
  refine ⟨rfl, ?_, ?_, ?_⟩
  · rw [scan_found_items]
    exact hnd
  · rw [hsizes, scan_found_items]
  · rw [hsizes, scan_found_items]
    have htot : (scan prev cfg root sz rootOk tree).total_bytes =
        ((walkDir cfg root sz [] rootOk tree).map Prod.snd).sum := by
      unfold scan
      rw [foldl_scan_step_total]
      simp
    rw [htot, dict_get_map_of_nodup _ hnd]

theorem claim_C9_scan_state_consistent_witness :
    wfEntries demoTree = true ∧
      (scan ⟨[["old"]], [(["old"], 3)], 3⟩ demoCfg ["home", "user", "ws"] sizeByGetSize true
          demoTree =
        scan ⟨[], [], 0⟩ demoCfg ["home", "user", "ws"] sizeByGetSize true demoTree ∧
      (scan ⟨[["old"]], [(["old"], 3)], 3⟩ demoCfg ["home", "user", "ws"] sizeByGetSize true
          demoTree).found_items.Nodup ∧
      (scan ⟨[["old"]], [(["old"], 3)], 3⟩ demoCfg ["home", "user", "ws"] sizeByGetSize true
          demoTree).item_sizes.map Prod.fst =
        (scan ⟨[["old"]], [(["old"], 3)], 3⟩ demoCfg ["home", "user", "ws"] sizeByGetSize true
          demoTree).found_items ∧
      (scan ⟨[["old"]], [(["old"], 3)], 3⟩ demoCfg ["home", "user", "ws"] sizeByGetSize true
          demoTree).total_bytes =
        (((scan ⟨[["old"]], [(["old"], 3)], 3⟩ demoCfg ["home", "user", "ws"] sizeByGetSize true
            demoTree).found_items).map
          (fun p =>
            (dict_get (scan ⟨[["old"]], [(["old"], 3)], 3⟩ demoCfg ["home", "user", "ws"]
              sizeByGetSize true demoTree).item_sizes p).getD 0)).sum) :=
  ⟨by decide,
   claim_C9_scan_state_consistent demoCfg ["home", "user", "ws"] sizeByGetSize true demoTree
     (by decide) ⟨[["old"]], [(["old"], 3)], 3⟩ ⟨[], [], 0⟩⟩

/-! ## Claim C3: size computation -/

mutual
/-- Structural recursion replacing every symlink's target-content size
using `f`, leaving everything else unchanged; used to state that
`get_size` never reads the target's content. -/
def retargetEntry (f : Nat → Nat) : Entry → Entry
  | .file n s ok => .file n s ok
  | .symlink n l t ok => .symlink n l (f t) ok
  | .dir n ok es => .dir n ok (retargetEntries f es)
/-- List version of `retargetEntry`. -/
def retargetEntries (f : Nat → Nat) : List Entry → List Entry
  | [] => []
  | e :: es => retargetEntry f e :: retargetEntries f es
end

mutual
/-- Refinement definition following the specification's words: the byte
contributions of a directory's content are each accessible regular file's
reported stat size and, for each accessible symbolic link, the size of
the link object itself -- never the size of the link's target content;
entries raising permission/OS errors contribute zero, and sizing never
descends through symlinked directories. -/
def spec_occupied_contrib : Entry → List Nat
  | .file _ size ok => if ok then [size] else []
  | .symlink _ linkSize _ ok => if ok then [linkSize] else []
  | .dir _ ok es => if ok then spec_occupied_contribs es else []
/-- List version of `spec_occupied_contrib`. -/
def spec_occupied_contribs : List Entry → List Nat
  | [] => []
  | e :: es => spec_occupied_contrib e ++ spec_occupied_contribs es
end

mutual
theorem nodeSize_eq_spec (e : Entry) : nodeSize e = (spec_occupied_contrib e).sum := by
  cases e with
  | file n s ok => cases ok <;> simp [nodeSize, spec_occupied_contrib]
  | symlink n l t ok => cases ok <;> simp [nodeSize, spec_occupied_contrib]
  | dir n ok es =>
      cases ok <;> simp [nodeSize, spec_occupied_contrib]
      exact nodesSize_eq_spec es
theorem nodesSize_eq_spec (es : List Entry) : nodesSize es = (spec_occupied_contribs es).sum := by
  cases es with
  | nil => simp [nodesSize, spec_occupied_contribs]
  | cons e es =>
      simp [nodesSize, spec_occupied_contribs]
      rw [nodeSize_eq_spec e, nodesSize_eq_spec es]
end

mutual
theorem nodeSize_retarget (f : Nat → Nat) (e : Entry) :
    nodeSize (retargetEntry f e) = nodeSize e := by
  cases e with
  | file n s ok => rfl
  | symlink n l t ok => rfl
  | dir n ok es =>
      simp only [retargetEntry, nodeSize]
      rw [nodesSize_retarget f es]
theorem nodesSize_retarget (f : Nat → Nat) (es : List Entry) :
    nodesSize (retargetEntries f es) = nodesSize es := by
  cases es with
  | nil => rfl
  | cons e es =>
      simp only [retargetEntries, nodesSize]
      rw [nodeSize_retarget f e, nodesSize_retarget f es]
end

/-- Claim C3: `get_size` returns the sum of the regular files' reported
stat sizes plus, for each symbolic link, the size of the link object
itself, and never the size of the link's target content (the result is
invariant under arbitrary changes of all target-content sizes); entries
raising permission/OS errors contribute zero (already part of the sum
characterization), an unlistable directory yields zero rather than an
error, a folder containing only a symlink has exactly the link-object
size, and in particular is smaller than the target's content whenever the
link object is.  Totality of `get_size` models that the function never
raises and never follows directory symlinks into a cycle. -/
theorem claim_C3_get_size_never_counts_targets (tree : List Entry) :
    get_size true tree = (spec_occupied_contribs tree).sum ∧
    get_size false tree = 0 ∧
    (∀ f : Nat → Nat, get_size true (retargetEntries f tree) = get_size true tree) ∧
    (∀ (n : String) (linkSize targetSize : Nat) (ok : Bool),
      get_size true [Entry.symlink n linkSize targetSize ok] =
        if ok then linkSize else 0) ∧
    (∀ (n : String) (linkSize targetSize : Nat), linkSize < targetSize →
      get_size true [Entry.symlink n linkSize targetSize true] < targetSize) := by
  refine ⟨?_, rfl, ?_, ?_, ?_⟩
  · simpa [get_size] using nodesSize_eq_spec tree
  · intro f
    simpa [get_size] using nodesSize_retarget f tree
  · intro n linkSize targetSize ok
    cases ok <;> simp [get_size, nodesSize, nodeSize]
  · intro n linkSize targetSize hlt
    simpa [get_size, nodesSize, nodeSize] using hlt

theorem claim_C3_get_size_never_counts_targets_witness :
    (12 : Nat) < 1048576 ∧
      get_size true [Entry.symlink "link_to_real" 12 1048576 true] < 1048576 :=
  ⟨by decide,
   (claim_C3_get_size_never_counts_targets
     [Entry.symlink "link_to_real" 12 1048576 true]).2.2.2.2 "link_to_real" 12 1048576
     (by decide)⟩

/-! ## Claim C4: the size index -/

/-- Claim C4 (the intended behaviour, which the code implements except at
the failing input): a cached size is used exactly when a stored entry
exists for the resolved-path key and its stored mtime equals the current
mtime; any other case recomputes (`fresh_size` stands for the
`get_size` recomputation); with indexing off nothing is consulted or
recorded; a missing, unreadable, or undecodable index file and a
schema-version mismatch or non-object entries field all degrade to the
empty cache.  The final conjunct exhibits the divergence: a valid-JSON
index file whose top level is an array makes `_load_scan_index` raise an
uncaught `AttributeError` (modelled as `none`) instead of degrading. -/
theorem claim_C4_index_exact_mtime_or_recompute :
    (∀ (path_key : String) (mtime_ns : Int) (scan_index updated_index : List (String × IndexEntry))
        (fresh_size : Int),
      size_with_index path_key mtime_ns scan_index updated_index true fresh_size =
        match dict_get scan_index path_key with
        | some cached_entry =>
            if cached_entry.mtime_ns = mtime_ns then
              (cached_entry.size_bytes,
               dict_insert updated_index path_key ⟨mtime_ns, cached_entry.size_bytes⟩)
            else (fresh_size, dict_insert updated_index path_key ⟨mtime_ns, fresh_size⟩)
        | none => (fresh_size, dict_insert updated_index path_key ⟨mtime_ns, fresh_size⟩)) ∧
    (∀ (path_key : String) (mtime_ns : Int) (scan_index updated_index : List (String × IndexEntry))
        (fresh_size : Int),
      size_with_index path_key mtime_ns scan_index updated_index false fresh_size =
        (fresh_size, updated_index)) ∧
    load_scan_index none = some [] ∧
    load_scan_index (some (.jobj [("schema_version", .jstr "2")])) = some [] ∧
    load_scan_index (some (.jobj [("schema_version", .jstr "1"), ("entries", .jint 5)])) =
      some [] ∧
    load_scan_index (some (.jobj [("schema_version", .jstr "1"),
      ("entries", .jobj [("/ws/a/node_modules", .jobj [("mtime_ns", .jint 17),
        ("size_bytes", .jint 1024)])])])) =
      some [("/ws/a/node_modules", ⟨17, 1024⟩)] ∧
    load_scan_index (some (.jarr [])) = none :=
  ⟨fun _ _ _ _ _ => rfl, fun _ _ _ _ _ => rfl, rfl, rfl, rfl, rfl, rfl⟩

/-! ## Cleanup lemmas -/

/-- The outcome the cleanup loop records for one item. -/
def item_outcome (dry_run trash : Bool) (trash_root : Option RPath) (dest : RPath → RPath)
    (reply : RPath → OsReply) (item : RPath) : ItemResult :=
  if dry_run then ⟨item, "simulated", none, none⟩
  else (cleanup_one trash trash_root dest reply item).1

/-- Number of results with a given status. -/
def countStatus (s : String) (l : List ItemResult) : Nat :=
  (l.filter fun r => r.status == s).length

/-- Number of strings equal to a given one. -/
def countEq (s : String) (l : List String) : Nat :=
  (l.filter fun x => x == s).length

/-- The counter update of one loop iteration, as a function of the
recorded status: the dry-run branch counts a simulated item under
`skipped`, the destructive branch tallies by `bump_stats`. -/
def statusTally (stats : CleanupStats) (status : String) : CleanupStats :=
  if status == "simulated" then
    ⟨stats.deleted, stats.trashed, stats.skipped + 1, stats.failed⟩
  else bump_stats stats status

theorem item_outcome_path (dry_run trash : Bool) (trash_root : Option RPath)
    (dest : RPath → RPath) (reply : RPath → OsReply) (item : RPath) :
    (item_outcome dry_run trash trash_root dest reply item).path = item := by
  unfold item_outcome cleanup_one
  split
  · rfl
  · split
    · split
      · rfl
      · split <;> rfl
    · split <;> rfl

theorem cleanup_one_status (trash : Bool) (trash_root : Option RPath)
    (dest : RPath → RPath) (reply : RPath → OsReply) (item : RPath) :
    (cleanup_one trash trash_root dest reply item).1.status ∈
      (["deleted", "trashed", "skipped", "failed"] : List String) := by
  unfold cleanup_one
  split
  · split
    · simp
    · split <;> simp
  · split <;> simp

theorem item_outcome_status (dry_run trash : Bool) (trash_root : Option RPath)
    (dest : RPath → RPath) (reply : RPath → OsReply) (item : RPath) :
    (item_outcome dry_run trash trash_root dest reply item).status ∈
      (["deleted", "trashed", "skipped", "failed", "simulated"] : List String) := by
  unfold item_outcome
  split
  · simp
  · have h := cleanup_one_status trash trash_root dest reply item
    simp only [List.mem_cons] at h ⊢
    tauto

theorem cleanup_one_status_ne_simulated (trash : Bool) (trash_root : Option RPath)
    (dest : RPath → RPath) (reply : RPath → OsReply) (item : RPath) :
    ((cleanup_one trash trash_root dest reply item).1.status == "simulated") = false := by
  have h := cleanup_one_status trash trash_root dest reply item
  simp only [List.mem_cons, List.not_mem_nil, or_false] at h
  rcases h with h | h | h | h <;> rw [h] <;> rfl

theorem cleanup_loop_step_spec (dry_run trash : Bool) (trash_root : Option RPath)
    (dest : RPath → RPath) (reply : RPath → OsReply)
    (acc : CleanupStats × List ItemResult × List Mutation) (item : RPath) :
    cleanup_loop_step dry_run trash trash_root dest reply acc item =
      (statusTally acc.1 (item_outcome dry_run trash trash_root dest reply item).status,
       acc.2.1 ++ [item_outcome dry_run trash trash_root dest reply item],
       acc.2.2 ++ (if dry_run then []
         else (cleanup_one trash trash_root dest reply item).2)) := by
  unfold cleanup_loop_step item_outcome statusTally
  split
  · simp
  · rw [cleanup_one_status_ne_simulated]
    simp

theorem cleanup_foldl_spec (dry_run trash : Bool) (trash_root : Option RPath)
    (dest : RPath → RPath) (reply : RPath → OsReply) (l : List RPath) :
    ∀ acc : CleanupStats × List ItemResult × List Mutation,
      l.foldl (cleanup_loop_step dry_run trash trash_root dest reply) acc =
        (((l.map fun item =>
            (item_outcome dry_run trash trash_root dest reply item).status).foldl
            statusTally acc.1),
         acc.2.1 ++ l.map (item_outcome dry_run trash trash_root dest reply),
         acc.2.2 ++ (if dry_run then []
           else l.flatMap fun item => (cleanup_one trash trash_root dest reply item).2)) := by
  induction l with
  | nil =>
      intro acc
      cases dry_run <;> simp
  | cons item rest ih =>
      intro acc
      rw [List.foldl_cons, cleanup_loop_step_spec, ih]
      cases dry_run <;> simp

theorem countEq_cons (s x : String) (l : List String) :
    countEq s (x :: l) = (if x == s then 1 else 0) + countEq s l := by
  simp only [countEq, List.filter_cons]
  split
  · simp [Nat.add_comm]
  · simp

theorem foldl_statusTally_spec (sts : List String) :
    ∀ s0 : CleanupStats,
      (∀ st ∈ sts, st ∈ (["deleted", "trashed", "skipped", "failed", "simulated"] : List String)) →
      sts.foldl statusTally s0 =
        ⟨s0.deleted + countEq "deleted" sts, s0.trashed + countEq "trashed" sts,
         s0.skipped + countEq "skipped" sts + countEq "simulated" sts,
         s0.failed + countEq "failed" sts⟩ := by
  induction sts with
  | nil =>
      intro s0 _
      simp [countEq]
  | cons st rest ih =>
      intro s0 hmem
      rw [List.foldl_cons, ih _ (fun x hx => hmem x (List.mem_cons_of_mem _ hx))]
      have hst := hmem st (List.mem_cons_self _ _)
      simp only [List.mem_cons, List.not_mem_nil, or_false] at hst
      rcases hst with h | h | h | h | h <;>
        subst h <;>
        simp [statusTally, bump_stats, countEq_cons] <;>
        omega

theorem countStatus_eq_countEq (s : String) (l : List ItemResult) :
    countStatus s l = countEq s (l.map fun r => r.status) := by
  induction l with
  | nil => rfl
  | cons r rest ih =>
      simp only [countStatus, countEq, List.filter_cons, List.map_cons] at *
      split <;> simpa using ih

/-! ## Claim C5 -/

/-- Claim C5 (counterexample to the claim as stated): in simulate mode the
outcome of the single item is "simulated", yet `CleanupStats` tallies it
under `skipped` and has no simulated counter, so the counts are not one
per status: `stats.skipped` is 1 while no outcome has status "skipped". -/
theorem claim_C5_statuses_counterexample :
    (cleanup [] (some [["a"]]) true false [] (fun p => p) (fun _ => OsReply.ok)).1.skipped = 1 ∧
    countStatus "skipped"
      (cleanup [] (some [["a"]]) true false [] (fun p => p) (fun _ => OsReply.ok)).2.1 = 0 ∧
    countStatus "simulated"
      (cleanup [] (some [["a"]]) true false [] (fun p => p) (fun _ => OsReply.ok)).2.1 = 1 := by
  refine ⟨rfl, rfl, rfl⟩

/-- Claim C5 as amended: every per-item outcome has status in {deleted,
trashed, skipped, failed, simulated}; the outcomes are aggregated into the
four counters of `CleanupStats`, with simulated outcomes counted under
`skipped`; in simulate (dry-run) mode every item's outcome is marked
"simulated" and no filesystem mutation occurs. -/
theorem claim_C5_statuses_and_aggregation (found_items : List RPath)
    (items : Option (List RPath)) (dry_run trash : Bool) (trash_root_path : RPath)
    (dest : RPath → RPath) (reply : RPath → OsReply) :
    (∀ r ∈ (cleanup found_items items dry_run trash trash_root_path dest reply).2.1,
      r.status ∈ (["deleted", "trashed", "skipped", "failed", "simulated"] : List String)) ∧
    (dry_run = true →
      (∀ r ∈ (cleanup found_items items dry_run trash trash_root_path dest reply).2.1,
        r.status = "simulated") ∧
      (cleanup found_items items dry_run trash trash_root_path dest reply).2.2 = []) ∧
    (cleanup found_items items dry_run trash trash_root_path dest reply).1.deleted =
      countStatus "deleted" (cleanup found_items items dry_run trash trash_root_path dest reply).2.1 ∧
    (cleanup found_items items dry_run trash trash_root_path dest reply).1.trashed =
      countStatus "trashed" (cleanup found_items items dry_run trash trash_root_path dest reply).2.1 ∧
    (cleanup found_items items dry_run trash trash_root_path dest reply).1.failed =
      countStatus "failed" (cleanup found_items items dry_run trash trash_root_path dest reply).2.1 ∧
    (cleanup found_items items dry_run trash trash_root_path dest reply).1.skipped =
      countStatus "skipped" (cleanup found_items items dry_run trash trash_root_path dest reply).2.1 +
        countStatus "simulated"
          (cleanup found_items items dry_run trash trash_root_path dest reply).2.1 := by
  unfold cleanup
  rw [cleanup_foldl_spec]
  set sel : List RPath := match items with | some l => l | none => found_items with hsel
  set troot : Option RPath := if trash && !dry_run then some trash_root_path else none with htroot
  have hstat := foldl_statusTally_spec
    (sel.map fun item => (item_outcome dry_run trash troot dest reply item).status)
    ⟨0, 0, 0, 0⟩
    (by
      intro st hst
      rcases List.mem_map.1 hst with ⟨item, _, rfl⟩
      exact item_outcome_status dry_run trash troot dest reply item)
  refine ⟨?_, ?_, ?_, ?_, ?_, ?_⟩
  · intro r hr
    simp only [List.nil_append] at hr
    rcases List.mem_map.1 hr with ⟨item, _, rfl⟩
    exact item_outcome_status dry_run trash troot dest reply item
  · intro hdry
    subst hdry
    constructor
    · intro r hr
      simp only [List.nil_append] at hr
      rcases List.mem_map.1 hr with ⟨item, _, rfl⟩
      rfl
    · simp
  all_goals
    simp only [hstat, List.nil_append, countStatus_eq_countEq, List.map_map,
      Function.comp_def]
    try simp
    try omega

/-- Concrete instance of the dry-run part of the amended claim C5. -/
theorem claim_C5_statuses_and_aggregation_witness :
    (cleanup [] (some [["proj", "node_modules"]]) true true ["trash"] (fun p => p)
      (fun _ => OsReply.ok)).2.2 = ([] : List Mutation) :=
  ((claim_C5_statuses_and_aggregation [] (some [["proj", "node_modules"]]) true true ["trash"]
    (fun p => p) (fun _ => OsReply.ok)).2.1 rfl).2

/-! ## Claims C6 and C10 -/

/-- Claim C6: in a destructive mode (dry_run = false), cleanup produces
one outcome per item and never halts early; an item whose operation
reports not-found is "skipped", and any other OS error makes it "failed"
with the message captured, processing continuing either way (every item
has its outcome in the result list). -/
theorem claim_C6_error_mapping (found_items : List RPath) (items : List RPath)
    (trash : Bool) (trash_root_path : RPath) (dest : RPath → RPath)
    (reply : RPath → OsReply) :
    (cleanup found_items (some items) false trash trash_root_path dest reply).2.1.length =
      items.length ∧
    ∀ r ∈ (cleanup found_items (some items) false trash trash_root_path dest reply).2.1,
      (reply r.path = OsReply.notFound → r.status = "skipped") ∧
      (∀ msg, reply r.path = OsReply.oserr msg → r.status = "failed" ∧ r.error = some msg) := by
  unfold cleanup
  rw [cleanup_foldl_spec]
  simp only [List.nil_append]
  constructor
  · simp
  · intro r hr
    rcases List.mem_map.1 hr with ⟨item, _, rfl⟩
    rw [item_outcome_path]
    have hpath : (item_outcome false trash
        (if trash && !false then some trash_root_path else none) dest reply item) =
        (cleanup_one trash (if trash && !false then some trash_root_path else none)
          dest reply item).1 := rfl
    rw [hpath]
    constructor
    · intro hnf
      cases trash <;> simp only [cleanup_one, Bool.and_true, Bool.not_false] <;> rw [hnf] <;> rfl
    · intro msg herr
      cases trash <;> simp only [cleanup_one, Bool.and_true, Bool.not_false] <;> rw [herr] <;>
        exact ⟨rfl, rfl⟩

theorem claim_C6_error_mapping_witness :
    (cleanup [] (some [["gone"], ["locked"]]) false false ["trash"] (fun p => p)
      (fun p => if p = ["gone"] then OsReply.notFound else OsReply.oserr "blocked")).2.1.length
      = 2 ∧
    (⟨["gone"], "skipped", none, none⟩ : ItemResult).status = "skipped" :=
  ⟨(claim_C6_error_mapping [] [["gone"], ["locked"]] false ["trash"] (fun p => p)
      (fun p => if p = ["gone"] then OsReply.notFound else OsReply.oserr "blocked")).1,
   ((claim_C6_error_mapping [] [["gone"], ["locked"]] false ["trash"] (fun p => p)
      (fun p => if p = ["gone"] then OsReply.notFound else OsReply.oserr "blocked")).2
      ⟨["gone"], "skipped", none, none⟩ (by decide)).1 (by decide)⟩

/-- Claim C10: cleanup returns exactly one result per input item, in the
same order, with the i-th result's path equal to the i-th input item;
with no explicit selection the engine's found items play that role. -/
theorem claim_C10_results_one_to_one (found_items : List RPath) (items : List RPath)
    (dry_run trash : Bool) (trash_root_path : RPath) (dest : RPath → RPath)
    (reply : RPath → OsReply) :
    ((cleanup found_items (some items) dry_run trash trash_root_path dest reply).2.1.map
      fun r => r.path) = items ∧
    ((cleanup found_items none dry_run trash trash_root_path dest reply).2.1.map
      fun r => r.path) = found_items := by
  constructor <;>
    · unfold cleanup
      rw [cleanup_foldl_spec]
      simp only [List.nil_append, List.map_map, Function.comp_def]
      exact (List.map_congr_left fun item _ =>
        item_outcome_path _ _ _ _ _ item).trans (List.map_id _)

/-! ## Claim C8: trash destinations -/

/-- Claim C8: for every item trashed in trash mode, the destination is
the session trash root joined with the item's path relative to the scan
root; if that destination already exists, the first free numeric suffix
(counting from 1) is appended to the destination's leaf name, every
smaller suffix being taken; and with the move succeeding the item's
outcome is "trashed" with the destination recorded. -/
theorem claim_C8_trash_destination (trash_root : RPath) (occ : RPath → Bool) (item : RPath)
    (h : ∃ k, occ (with_suffix (trash_root ++ item) (k + 1)) = false)
    (reply : RPath → OsReply) :
    (occ (trash_root ++ item) = false →
      move_to_trash_dest trash_root occ item h = trash_root ++ item) ∧
    (occ (trash_root ++ item) = true →
      ∃ k, 1 ≤ k ∧
        move_to_trash_dest trash_root occ item h = with_suffix (trash_root ++ item) k ∧
        occ (with_suffix (trash_root ++ item) k) = false ∧
        ∀ j, 1 ≤ j → j < k → occ (with_suffix (trash_root ++ item) j) = true) ∧
    (reply item = OsReply.ok →
      (cleanup_one true (some trash_root)
        (fun _ => move_to_trash_dest trash_root occ item h) reply item).1 =
        ⟨item, "trashed", none, some (move_to_trash_dest trash_root occ item h)⟩) := by
  refine ⟨?_, ?_, ?_⟩
  · intro hfree
    unfold move_to_trash_dest
    rw [hfree]
    simp
  · intro hocc
    refine ⟨Nat.find h + 1, by omega, ?_, Nat.find_spec h, ?_⟩
    · unfold move_to_trash_dest unique_path
      rw [hocc]
      simp
    · intro j hj1 hjk
      have hlt : j - 1 < Nat.find h := by omega
      have hmin := Nat.find_min h hlt
      have hj : j - 1 + 1 = j := by omega
      rw [hj] at hmin
      cases hocc2 : occ (with_suffix (trash_root ++ item) j)
      · exact absurd hocc2 hmin
      · rfl
  · intro hok
    simp [cleanup_one, hok]

/-- A concrete occupation oracle for the trash-destination claim: the
plain destination and its first suffixed candidate both exist already. -/
def demoOcc : RPath → Bool := fun p =>
  ([["trash", "project", "node_modules"],
    ["trash", "project", "node_modules-1"]] : List RPath).contains p

theorem demoOcc_free : ∃ k, demoOcc (with_suffix (["trash"] ++ ["project", "node_modules"]) (k + 1)) = false :=
  ⟨1, by decide⟩

theorem claim_C8_trash_destination_witness :
    demoOcc (["trash"] ++ ["project", "node_modules"]) = true ∧
    demoOcc (move_to_trash_dest ["trash"] demoOcc ["project", "node_modules"] demoOcc_free)
      = false := by
  obtain ⟨k, _, heq, hfree, _⟩ :=
    (claim_C8_trash_destination ["trash"] demoOcc ["project", "node_modules"] demoOcc_free
      (fun _ => OsReply.ok)).2.1 (by decide)
  exact ⟨by decide, by rw [heq]; exact hfree⟩

/-! ## Claim C7: the max-delete-count refusal -/

/-- Claim C7 as amended: a destructive run whose selected set exceeds the
configured max-delete-count (default 50) without the no-delete-limit
override is refused with exit code 1 before any delete, trash or other
cleanup mutation; the only filesystem write that can already have
happened is the scan's rewrite of the index cache file (present exactly
when indexing is enabled and the run got as far as scanning). -/
theorem claim_C7_limit_refusal (inv : CleanInvocation) (env : CleanEnv)
    (hdestr : (inv.dry_run && !inv.no_dry_run) = false)
    (hnl1 : inv.no_delete_limit = false) (hnl2 : env.cfg.no_delete_limit = false)
    (hcount : env.cfg.max_delete_count < (selected_items inv env).length) :
    (clean inv env = CleanResult.errorExit 1 [] ∨
      clean inv env = CleanResult.errorExit 1
        (if inv.use_index then [Mutation.writeIndex] else [])) ∧
    defaultSweepConfig.max_delete_count = 50 := by
  refine ⟨?_, rfl⟩
  have hempty : (selected_items inv env).isEmpty = false := by
    cases hE : (selected_items inv env).isEmpty
    · rfl
    · rw [List.isEmpty_iff] at hE
      rw [hE] at hcount
      simp at hcount
  unfold clean
  dsimp only
  rw [hdestr, hnl1, hnl2, hempty, decide_eq_true hcount]
  simp only [Bool.not_false, Bool.or_self, Bool.true_and, Bool.and_true]
  cases h1 : (inv.outputJson && inv.interactive)
  · cases h2 : env.pathExists
    · exact Or.inl rfl
    · cases h3 : env.isFsRoot
      · cases h4 : env.isHomeRoot
        · cases h5 : env.configError
          · cases h6 : inv.yes_delete
            · exact Or.inl rfl
            · cases h7 : (inv.outputJson && !inv.force)
              · exact Or.inr rfl
              · exact Or.inl rfl
          · exact Or.inl rfl
        · exact Or.inl rfl
      · exact Or.inl rfl
  · exact Or.inl rfl

/-- Demonstration invocation for the refusal claim: a forced destructive
delete with indexing enabled and no override. -/
def demoInv : CleanInvocation :=
  ⟨true, false, false, false, false, false, true, true, false, false⟩

/-- Demonstration environment: an effective max-delete-count of 1 and two
matched items. -/
def demoEnv : CleanEnv :=
  ⟨true, false, false, false, ⟨["node_modules"], [], [], 1, false⟩,
   [["a", "node_modules"], ["b", "node_modules"]], fun l => l, true, ["trash"],
   fun p => p, fun _ => OsReply.ok⟩

/-- Claim C7 (counterexample to the claim as stated): this over-limit
destructive run is refused with exit code 1, but the mutation list is not
empty -- the scan already rewrote the index cache file before the
refusal, so "zero filesystem mutation occurs" fails as stated. -/
theorem claim_C7_limit_refusal_counterexample :
    clean demoInv demoEnv = CleanResult.errorExit 1 [Mutation.writeIndex] ∧
    ([Mutation.writeIndex] : List Mutation) ≠ [] := by
  refine ⟨rfl, by decide⟩

theorem claim_C7_limit_refusal_witness :
    (clean demoInv demoEnv = CleanResult.errorExit 1 [] ∨
      clean demoInv demoEnv = CleanResult.errorExit 1
        (if demoInv.use_index then [Mutation.writeIndex] else [])) ∧
    defaultSweepConfig.max_delete_count = 50 :=
  claim_C7_limit_refusal demoInv demoEnv (by decide) (by decide) (by decide) (by decide)

end Fsweep
